import Mathlib

/-!
Verification development for the vector-path styling and arc-geometry core
of the epaint crate (files stroke.rs and shapes/arc_shape.rs).

Scalar fields that the Rust code stores as f32 are embedded as exact
rationals; every concrete f32 value is a rational, and all field-level
arithmetic in the verified operations is exact.  Quantities derived through
transcendental functions (atan2, cos, sin, pi) live in the real numbers.
The one place where the source can produce a NaN (the 0/0 loop parameter in
flatten when num_segments is zero) is modelled explicitly with Option:
none stands for the NaN point, since IEEE NaN propagates through every
addition and multiplication in point_at.
-/

/-- Modelled from the spec: the consumed geometric point type (2-D float pair)
from the external math crate. -/
structure Pos2 where
  x : ℚ
  y : ℚ
deriving DecidableEq

/-- Modelled from the spec: the consumed 2-D vector type supporting
component-wise scalar multiply. -/
structure Vec2 where
  x : ℚ
  y : ℚ
deriving DecidableEq

/-- Modelled from the spec: the consumed opaque RGBA color type with a defined
fully-transparent value. -/
structure Color32 where
  r : ℕ
  g : ℕ
  b : ℕ
  a : ℕ
deriving DecidableEq

/-- The fully transparent color, all four channels zero. -/
def Color32.TRANSPARENT : Color32 := ⟨0, 0, 0, 0⟩

/-- Modelled from the spec: the derived zero default of the consumed color
type is the fully transparent color. -/
def Color32.default : Color32 := Color32.TRANSPARENT

/-- How the end of a line should be rendered (stroke.rs). -/
inductive LineCap where
  | Butt
  | Round
  | Square
deriving DecidableEq

/-- How line segments join (stroke.rs). -/
inductive LineJoin where
  | Miter
  | Round
  | Bevel
deriving DecidableEq

/-- Default for LineCap (stroke.rs impl Default). -/
def LineCap.default : LineCap := LineCap.Butt

/-- Default for LineJoin (stroke.rs impl Default). -/
def LineJoin.default : LineJoin := LineJoin.Miter

/-- Describes how the stroke of a shape should be painted (stroke.rs). -/
inductive StrokeKind where
  | Inside
  | Middle
  | Outside
deriving DecidableEq

/-- Describes the width and color of a line (stroke.rs struct Stroke). -/
structure Stroke where
  width : ℚ
  color : Color32
  cap : LineCap
  join : LineJoin
  miter_limit : ℚ
deriving DecidableEq

/-- The derived Default implementation of Stroke: every field takes the default
of its own type, so width 0, default (transparent) color, Butt, Miter, and the
f32 zero default 0 for the miter limit. -/
def Stroke.default : Stroke :=
  { width := 0
    color := Color32.default
    cap := LineCap.default
    join := LineJoin.default
    miter_limit := 0 }

/-- Stroke::NONE (stroke.rs). -/
def Stroke.NONE : Stroke :=
  { width := 0
    color := Color32.TRANSPARENT
    cap := LineCap.Butt
    join := LineJoin.Miter
    miter_limit := 4 }

/-- Stroke::new (stroke.rs). -/
def Stroke.new (width : ℚ) (color : Color32) : Stroke :=
  { width := width
    color := color
    cap := LineCap.Butt
    join := LineJoin.Miter
    miter_limit := 4 }

/-- Stroke::is_empty: true if width is zero or color is transparent
(source: width <= 0.0 or color == TRANSPARENT). -/
def Stroke.is_empty (s : Stroke) : Prop :=
  s.width ≤ 0 ∨ s.color = Color32.TRANSPARENT

instance (s : Stroke) : Decidable s.is_empty :=
  inferInstanceAs (Decidable (s.width ≤ 0 ∨ s.color = Color32.TRANSPARENT))

/-- Modelled from the spec: the consumed rectangle type with min and max
corners, supporting point-union, point-containment, and expansion. -/
structure Rect where
  min : Pos2
  max : Pos2
deriving DecidableEq

/-- Modelled from the spec: bounding rectangle of the two given points. -/
def Rect.from_two_points (a b : Pos2) : Rect :=
  ⟨⟨Min.min a.x b.x, Min.min a.y b.y⟩, ⟨Max.max a.x b.x, Max.max a.y b.y⟩⟩

/-- Modelled from the spec: the rectangle holding the single given point. -/
def Rect.from_pos (p : Pos2) : Rect := ⟨p, p⟩

/-- Modelled from the spec: uniform expansion on every side. -/
def Rect.expand (rc : Rect) (d : ℚ) : Rect :=
  ⟨⟨rc.min.x - d, rc.min.y - d⟩, ⟨rc.max.x + d, rc.max.y + d⟩⟩

/-- Modelled from the spec: per-axis expansion by a vector. -/
def Rect.expand2 (rc : Rect) (v : Vec2) : Rect :=
  ⟨⟨rc.min.x - v.x, rc.min.y - v.y⟩, ⟨rc.max.x + v.x, rc.max.y + v.y⟩⟩

/-- Modelled from the spec: union takes the component-wise min of the min
corners and max of the max corners. -/
def Rect.union (rc rd : Rect) : Rect :=
  ⟨⟨Min.min rc.min.x rd.min.x, Min.min rc.min.y rd.min.y⟩,
   ⟨Max.max rc.max.x rd.max.x, Max.max rc.max.y rd.max.y⟩⟩

/-- Modelled from the spec: point containment, min ≤ p ≤ max on both axes. -/
def Rect.contains (rc : Rect) (p : Pos2) : Prop :=
  rc.min.x ≤ p.x ∧ p.x ≤ rc.max.x ∧ rc.min.y ≤ p.y ∧ p.y ≤ rc.max.y

instance (rc : Rect) (p : Pos2) : Decidable (rc.contains p) :=
  inferInstanceAs (Decidable (_ ∧ _ ∧ _ ∧ _))

/-- Modelled from the spec: the polymorphic paint mode, a tagged union of a
solid color and a position-dependent paint callback of
(bounding rect, point) to color.  Equality against the solid transparent
constant is what the source ever tests; a callback is never equal to a solid
color, matching the source comparison. -/
inductive ColorMode where
  | Solid : Color32 → ColorMode
  | UV : (Rect → Pos2 → Color32) → ColorMode

/-- ColorMode::TRANSPARENT: the solid fully-transparent color. -/
def ColorMode.TRANSPARENT : ColorMode := ColorMode.Solid Color32.TRANSPARENT

/-- Describes the width and color of paths (stroke.rs struct PathStroke). -/
structure PathStroke where
  width : ℚ
  color : ColorMode
  kind : StrokeKind
  cap : LineCap
  join : LineJoin
  miter_limit : ℚ

/-- PathStroke::NONE (stroke.rs). -/
def PathStroke.NONE : PathStroke :=
  { width := 0
    color := ColorMode.TRANSPARENT
    kind := StrokeKind.Middle
    cap := LineCap.Butt
    join := LineJoin.Miter
    miter_limit := 4 }

/-- PathStroke::new (stroke.rs). -/
def PathStroke.new (width : ℚ) (color : Color32) : PathStroke :=
  { width := width
    color := ColorMode.Solid color
    kind := StrokeKind.Middle
    cap := LineCap.Butt
    join := LineJoin.Miter
    miter_limit := 4 }

/-- PathStroke::new_uv (stroke.rs). -/
def PathStroke.new_uv (width : ℚ) (callback : Rect → Pos2 → Color32) : PathStroke :=
  { width := width
    color := ColorMode.UV callback
    kind := StrokeKind.Middle
    cap := LineCap.Butt
    join := LineJoin.Miter
    miter_limit := 4 }

/-- PathStroke::is_empty: true if width is zero or color is solid and
transparent (source: width <= 0.0 or color == ColorMode::TRANSPARENT). -/
def PathStroke.is_empty (p : PathStroke) : Prop :=
  p.width ≤ 0 ∨ p.color = ColorMode.TRANSPARENT

/-- The From-Stroke conversion for PathStroke (stroke.rs impl From):
an empty source collapses to NONE, otherwise width, cap, join and miter limit
carry over, the color becomes the solid mode, and the kind defaults to
Middle. -/
def PathStroke.from_stroke (s : Stroke) : PathStroke :=
  if s.is_empty then PathStroke.NONE
  else
    { width := s.width
      color := ColorMode.Solid s.color
      kind := StrokeKind.Middle
      cap := s.cap
      join := s.join
      miter_limit := s.miter_limit }

/-- Modelled from the spec: one atom fed to the hasher.  Floats go through the
totally-ordered canonical encoding (OrderedFloat); in the exact-rational model
the encoding is the value itself, and the signed-zero collapse is automatic
because -0.0 and 0.0 denote the same rational. -/
inductive HashAtom where
  | num : ℚ → HashAtom
  | kind : StrokeKind → HashAtom
  | cap : LineCap → HashAtom
  | join : LineJoin → HashAtom
deriving DecidableEq

/-- The Hash implementation for PathStroke (stroke.rs impl Hash), modelled as
the exact sequence of atoms written to the hasher: ordered-float width, kind,
cap, join, ordered-float miter limit.  The color is skipped, since the UV
variant holds a closure. -/
def PathStroke.hashData (p : PathStroke) : List HashAtom :=
  [HashAtom.num p.width, HashAtom.kind p.kind, HashAtom.cap p.cap,
   HashAtom.join p.join, HashAtom.num p.miter_limit]

/-- C3: converting a Stroke to a PathStroke yields exactly PathStroke::NONE
(width 0, solid transparent, Middle, Butt, Miter, miter limit 4) when the
source is empty, and otherwise carries over width, cap, join and miter limit,
wraps the color in the solid mode, and defaults the kind to Middle. -/
theorem from_stroke_cases (s : Stroke) :
    (s.is_empty →
      PathStroke.from_stroke s =
        ⟨0, ColorMode.Solid ⟨0, 0, 0, 0⟩, StrokeKind.Middle,
         LineCap.Butt, LineJoin.Miter, 4⟩) ∧
    (¬ s.is_empty →
      PathStroke.from_stroke s =
        ⟨s.width, ColorMode.Solid s.color, StrokeKind.Middle,
         s.cap, s.join, s.miter_limit⟩) := by
  constructor
  · intro h
    simp [PathStroke.from_stroke, h, PathStroke.NONE, ColorMode.TRANSPARENT,
      Color32.TRANSPARENT]
  · intro h
    simp [PathStroke.from_stroke, h]

/-- Witness for C3 at two concrete strokes: the empty stroke of width 0 and a
nonempty blue stroke of width 8 with Round cap and Bevel join. -/
theorem from_stroke_cases_witness :
    PathStroke.from_stroke ⟨0, ⟨0, 0, 0, 0⟩, LineCap.Butt, LineJoin.Miter, 4⟩ =
      ⟨0, ColorMode.Solid ⟨0, 0, 0, 0⟩, StrokeKind.Middle,
       LineCap.Butt, LineJoin.Miter, 4⟩ ∧
    PathStroke.from_stroke ⟨8, ⟨0, 0, 255, 255⟩, LineCap.Round, LineJoin.Bevel, 4⟩ =
      ⟨8, ColorMode.Solid ⟨0, 0, 255, 255⟩, StrokeKind.Middle,
       LineCap.Round, LineJoin.Bevel, 4⟩ :=
  ⟨(from_stroke_cases _).1 (Or.inl le_rfl),
   (from_stroke_cases _).2 (by decide)⟩

/-- C4: Stroke::is_empty holds exactly when the width is nonpositive or the
color is the fully transparent color; PathStroke::is_empty holds exactly when
the width is nonpositive or the color mode is the solid fully-transparent
case; and a PathStroke with positive width and a UV callback mode is never
empty. -/
theorem is_empty_characterization (s : Stroke) (p : PathStroke)
    (f : Rect → Pos2 → Color32) :
    (s.is_empty ↔ s.width ≤ 0 ∨ s.color = ⟨0, 0, 0, 0⟩) ∧
    (p.is_empty ↔ p.width ≤ 0 ∨ p.color = ColorMode.Solid ⟨0, 0, 0, 0⟩) ∧
    (0 < p.width → p.color = ColorMode.UV f → ¬ p.is_empty) := by
  refine ⟨Iff.rfl, Iff.rfl, ?_⟩
  intro hw hc h
  rcases h with h | h
  · exact absurd hw (not_lt.mpr h)
  · rw [hc] at h
    exact ColorMode.noConfusion h

/-- Witness for C4: a width-5 UV-paint stroke is not empty, and the two
characterizations hold at concrete strokes. -/
theorem is_empty_characterization_witness :
    ¬ PathStroke.is_empty
        ⟨5, ColorMode.UV (fun _ _ => Color32.TRANSPARENT), StrokeKind.Middle,
         LineCap.Butt, LineJoin.Miter, 4⟩ :=
  (is_empty_characterization Stroke.NONE _ (fun _ _ => Color32.TRANSPARENT)).2.2
    (by norm_num) rfl

/-- C7: the hash of a PathStroke depends only on width, kind, cap, join and
miter limit: any two strokes agreeing on those five fields feed identical
atom sequences to the hasher, whatever their color modes are. -/
theorem hashData_ignores_color (p q : PathStroke)
    (hw : p.width = q.width) (hk : p.kind = q.kind) (hc : p.cap = q.cap)
    (hj : p.join = q.join) (hm : p.miter_limit = q.miter_limit) :
    p.hashData = q.hashData := by
  simp [PathStroke.hashData, hw, hk, hc, hj, hm]

/-- Witness for C7: a solid blue stroke and a callback-painted stroke with the
same width, kind, cap, join and miter limit hash identically. -/
theorem hashData_ignores_color_witness :
    PathStroke.hashData
        ⟨2, ColorMode.Solid ⟨0, 0, 255, 255⟩, StrokeKind.Middle,
         LineCap.Butt, LineJoin.Miter, 4⟩ =
      PathStroke.hashData
        ⟨2, ColorMode.UV (fun _ p => ⟨p.x.num.toNat, 0, 0, 255⟩),
         StrokeKind.Middle, LineCap.Butt, LineJoin.Miter, 4⟩ :=
  hashData_ignores_color _ _ rfl rfl rfl rfl rfl

/-- C10: the derived Stroke default is not Stroke::NONE: its miter limit is
the f32 zero default 0 where NONE has 4, while width, color, cap and join all
coincide. -/
theorem stroke_default_ne_NONE :
    Stroke.default ≠ Stroke.NONE ∧
    Stroke.default.miter_limit = 0 ∧
    Stroke.NONE.miter_limit = 4 ∧
    Stroke.default.width = Stroke.NONE.width ∧
    Stroke.default.color = Stroke.NONE.color ∧
    Stroke.default.cap = Stroke.NONE.cap ∧
    Stroke.default.join = Stroke.NONE.join := by
  refine ⟨?_, rfl, rfl, rfl, rfl, rfl, rfl⟩
  decide

/-- Modelled from the spec: the consumed similarity-transform type with a
uniform scale factor and a translation; applying it to a point scales then
translates. -/
structure TSTransform where
  scaling : ℚ
  translation : Vec2

/-- Modelled from the spec: the point-apply operation of the similarity
transform. -/
def TSTransform.apply (t : TSTransform) (p : Pos2) : Pos2 :=
  ⟨t.scaling * p.x + t.translation.x, t.scaling * p.y + t.translation.y⟩

/-- Arc segment for path rendering (arc_shape.rs struct ArcShape). -/
structure ArcShape where
  center : Pos2
  start : Pos2
  «end» : Pos2
  radii : Vec2
  x_rotation : ℚ
  large_arc : Bool
  sweep : Bool
  start_angle : ℝ
  fill : Color32
  stroke : PathStroke

/-- f32::atan2: y.atan2 x is the argument of the complex number x + y i,
with range (-pi, pi] and atan2 0 0 = 0, matching the IEEE convention on
the values reachable here. -/
noncomputable def atan2 (y x : ℝ) : ℝ := Complex.arg ⟨x, y⟩

/-- ArcShape::angle (arc_shape.rs): the angle is recomputed from the stored
start, end and center via atan2, and normalized to be positive by adding a
full turn when negative. -/
noncomputable def ArcShape.angle (a : ArcShape) : ℝ :=
  let start_angle := atan2 ((a.start.y : ℝ) - (a.center.y : ℝ)) ((a.start.x : ℝ) - (a.center.x : ℝ))
  let end_angle := atan2 ((a.«end».y : ℝ) - (a.center.y : ℝ)) ((a.«end».x : ℝ) - (a.center.x : ℝ))
  let angle := end_angle - start_angle
  if angle < 0 then angle + 2 * Real.pi else angle

/-- ArcShape::arc_length (arc_shape.rs): mean radius times angle. -/
noncomputable def ArcShape.arc_length (a : ArcShape) : ℝ :=
  let radius := ((a.radii.x : ℝ) + (a.radii.y : ℝ)) / 2
  radius * a.angle

/-- ArcShape::point_at (arc_shape.rs): the point at parameter t. -/
noncomputable def ArcShape.point_at (a : ArcShape) (t : ℝ) : ℝ × ℝ :=
  let angle := a.angle
  let current_angle := a.start_angle + angle * t
  ((a.center.x : ℝ) + (a.radii.x : ℝ) * Real.cos current_angle,
   (a.center.y : ℝ) + (a.radii.y : ℝ) * Real.sin current_angle)

/-- The segment count of flatten (arc_shape.rs):
(arc_length / tolerance).ceil() as usize, where the f32-to-usize cast
saturates, sending every negative value (and the NaN from 0/0 when both
arc length and tolerance are zero, which the rational-division convention
0/0 = 0 maps to the same count 0) to zero. -/
noncomputable def ArcShape.num_segments (a : ArcShape) (tolerance : ℚ) : ℕ :=
  (⌈a.arc_length / (tolerance : ℝ)⌉).toNat

/-- ArcShape::flatten (arc_shape.rs): default tolerance 0.1, then
num_segments + 1 samples at parameters i / num_segments.  When num_segments
is zero the loop still runs once and computes the parameter 0/0, which is
NaN in f32; NaN propagates through every multiplication and addition of
point_at and through cos and sin, so the single emitted point is the NaN
point, modelled here as none. -/
noncomputable def ArcShape.flatten (a : ArcShape) (tolerance : Option ℚ) : List (Option (ℝ × ℝ)) :=
  let tolerance := tolerance.getD (1 / 10)
  let num_segments := a.num_segments tolerance
  (List.range (num_segments + 1)).map fun (i : ℕ) =>
    if num_segments = 0 then none
    else some (a.point_at ((i : ℝ) / (num_segments : ℝ)))

/-- ArcShape::visual_bounding_rect (arc_shape.rs). -/
def ArcShape.visual_bounding_rect (a : ArcShape) : Rect :=
  let rect := Rect.from_two_points a.start a.«end»
  let stroke_expansion := a.stroke.width / 2
  let rect := rect.expand stroke_expansion
  let rect := rect.union (Rect.from_pos a.center)
  rect.expand2 a.radii

/-- ArcShape::transform (arc_shape.rs): applies the transform to start and
end, scales radii and stroke width, and leaves every other field alone. -/
def ArcShape.transform (a : ArcShape) (t : TSTransform) : ArcShape :=
  { a with
    start := t.apply a.start
    «end» := t.apply a.«end»
    radii := ⟨a.radii.x * t.scaling, a.radii.y * t.scaling⟩
    stroke := { a.stroke with width := a.stroke.width * t.scaling } }

/-- A concrete upper semicircle: center at the origin, start (1,0),
end (-1,0), unit radii, derived start angle 0. -/
def semiArc : ArcShape :=
  { center := ⟨0, 0⟩
    start := ⟨1, 0⟩
    «end» := ⟨-1, 0⟩
    radii := ⟨1, 1⟩
    x_rotation := 0
    large_arc := false
    sweep := false
    start_angle := 0
    fill := Color32.TRANSPARENT
    stroke := PathStroke.NONE }

/-- A degenerate arc whose start and end coincide. -/
def zeroSpanArc : ArcShape :=
  { semiArc with «end» := ⟨1, 0⟩ }

/-- The semicircle with a zero radii vector. -/
def zeroRadiiArc : ArcShape :=
  { semiArc with radii := ⟨0, 0⟩ }

/-- The semicircle with a negative radii vector. -/
def negRadiiArc : ArcShape :=
  { semiArc with radii := ⟨-4, -4⟩ }

/-- An arc with a negative radii vector and a negative stroke width. -/
def badBoundsArc : ArcShape :=
  { semiArc with
    «end» := ⟨1, 0⟩
    radii := ⟨-2, -2⟩
    stroke := { PathStroke.NONE with width := -10 } }

theorem atan2_zero_one : atan2 0 1 = 0 := by
  have h : (⟨1, 0⟩ : ℂ) = (1 : ℂ) := by
    apply Complex.ext <;> simp
  rw [atan2, h, Complex.arg_one]

theorem atan2_zero_neg_one : atan2 0 (-1) = Real.pi := by
  have h : (⟨-1, 0⟩ : ℂ) = (-1 : ℂ) := by
    apply Complex.ext <;> simp
  rw [atan2, h, Complex.arg_neg_one]

theorem semiArc_angle : semiArc.angle = Real.pi := by
  have h1 : ((1 : ℚ) : ℝ) - ((0 : ℚ) : ℝ) = 1 := by norm_num
  have h2 : ((-1 : ℚ) : ℝ) - ((0 : ℚ) : ℝ) = -1 := by norm_num
  have h0 : ((0 : ℚ) : ℝ) - ((0 : ℚ) : ℝ) = 0 := by norm_num
  simp only [ArcShape.angle, semiArc, h0, h1, h2, atan2_zero_one,
    atan2_zero_neg_one, sub_zero]
  rw [if_neg (not_lt.mpr Real.pi_pos.le)]

/-- The angle of an arc is always normalized into the interval from 0
(inclusive) to a full turn (exclusive). -/
theorem angle_nonneg_lt (a : ArcShape) : 0 ≤ a.angle ∧ a.angle < 2 * Real.pi := by
  have hs1 := Complex.neg_pi_lt_arg
    ⟨(a.start.x : ℝ) - (a.center.x : ℝ), (a.start.y : ℝ) - (a.center.y : ℝ)⟩
  have hs2 := Complex.arg_le_pi
    ⟨(a.start.x : ℝ) - (a.center.x : ℝ), (a.start.y : ℝ) - (a.center.y : ℝ)⟩
  have he1 := Complex.neg_pi_lt_arg
    ⟨(a.«end».x : ℝ) - (a.center.x : ℝ), (a.«end».y : ℝ) - (a.center.y : ℝ)⟩
  have he2 := Complex.arg_le_pi
    ⟨(a.«end».x : ℝ) - (a.center.x : ℝ), (a.«end».y : ℝ) - (a.center.y : ℝ)⟩
  simp only [ArcShape.angle, atan2]
  split_ifs with h
  · constructor <;> linarith
  · constructor <;> linarith

/-- Flatten always emits one more point than the segment count. -/
theorem flatten_length (a : ArcShape) (tol : Option ℚ) :
    (a.flatten tol).length = a.num_segments (tol.getD (1 / 10)) + 1 := by
  simp only [ArcShape.flatten, List.length_map, List.length_range]

/-- C1: when start and end coincide, the angle is exactly zero, the segment
count is zero for every tolerance, and flatten emits exactly one point — but
that point is the NaN point produced by the unguarded 0/0 loop parameter,
not the well-defined point_at 0 the spec requires. -/
theorem flatten_degenerate (a : ArcShape) (tol : Option ℚ)
    (h : a.start = a.«end») : a.flatten tol = [none] := by
  have hang : a.angle = 0 := by
    simp only [ArcShape.angle, h]
    simp
  have hlen : a.arc_length = 0 := by
    simp only [ArcShape.arc_length, hang, mul_zero]
  have hn : ∀ t : ℚ, a.num_segments t = 0 := by
    intro t
    simp only [ArcShape.num_segments, hlen, zero_div, Int.ceil_zero, Int.toNat_zero]
  simp only [ArcShape.flatten, hn]
  rfl

/-- Witness for C1: the degenerate arc with start = end = (1,0) flattens to
the single NaN point at tolerance 1. -/
theorem flatten_degenerate_witness : zeroSpanArc.flatten (some 1) = [none] :=
  flatten_degenerate zeroSpanArc (some 1) rfl

/-- C2: transform applies the similarity transform to start and end, scales
the radii component-wise and the stroke width by the scale factor, and leaves
center, x_rotation, large_arc, sweep, start_angle, fill and all remaining
stroke fields unchanged. -/
theorem transform_spec (a : ArcShape) (t : TSTransform) :
    (a.transform t).start =
      ⟨t.scaling * a.start.x + t.translation.x,
       t.scaling * a.start.y + t.translation.y⟩ ∧
    (a.transform t).«end» =
      ⟨t.scaling * a.«end».x + t.translation.x,
       t.scaling * a.«end».y + t.translation.y⟩ ∧
    (a.transform t).radii = ⟨a.radii.x * t.scaling, a.radii.y * t.scaling⟩ ∧
    (a.transform t).stroke.width = a.stroke.width * t.scaling ∧
    (a.transform t).center = a.center ∧
    (a.transform t).x_rotation = a.x_rotation ∧
    (a.transform t).large_arc = a.large_arc ∧
    (a.transform t).sweep = a.sweep ∧
    (a.transform t).start_angle = a.start_angle ∧
    (a.transform t).fill = a.fill ∧
    (a.transform t).stroke.color = a.stroke.color ∧
    (a.transform t).stroke.kind = a.stroke.kind ∧
    (a.transform t).stroke.cap = a.stroke.cap ∧
    (a.transform t).stroke.join = a.stroke.join ∧
    (a.transform t).stroke.miter_limit = a.stroke.miter_limit :=
  ⟨rfl, rfl, rfl, rfl, rfl, rfl, rfl, rfl, rfl, rfl, rfl, rfl, rfl, rfl, rfl⟩

/-- C8: flatten never consults the large_arc and sweep flags: flipping them
leaves the flattened polyline unchanged for every tolerance. -/
theorem flatten_ignores_flags (a : ArcShape) (la sw : Bool) (tol : Option ℚ) :
    ({ a with large_arc := la, sweep := sw } : ArcShape).flatten tol
      = a.flatten tol := rfl

/-- C9: for a fixed arc with positive angle, shrinking the tolerance never
decreases the segment count, nor the number of flattened points. -/
theorem num_segments_monotone (a : ArcShape) (t1 t2 : ℚ)
    (_hang : 0 < a.angle) (h1 : 0 < t1) (h12 : t1 ≤ t2) :
    a.num_segments t2 ≤ a.num_segments t1 ∧
    (a.flatten (some t2)).length ≤ (a.flatten (some t1)).length := by
  have ht1 : (0 : ℝ) < (t1 : ℝ) := by exact_mod_cast h1
  have ht2 : (0 : ℝ) < (t2 : ℝ) := by
    have : (0 : ℚ) < t2 := lt_of_lt_of_le h1 h12
    exact_mod_cast this
  have ht12 : (t1 : ℝ) ≤ (t2 : ℝ) := by exact_mod_cast h12
  have key : a.num_segments t2 ≤ a.num_segments t1 := by
    simp only [ArcShape.num_segments]
    rcases le_or_lt 0 a.arc_length with hL | hL
    · apply Int.toNat_le_toNat
      apply Int.ceil_le_ceil
      gcongr
    · have hz : ⌈a.arc_length / (t2 : ℝ)⌉ ≤ 0 :=
        Int.ceil_le.mpr (by simpa using (div_neg_of_neg_of_pos hL ht2).le)
      rw [Int.toNat_of_nonpos hz]
      exact Nat.zero_le _
  refine ⟨key, ?_⟩
  rw [flatten_length, flatten_length]
  simpa using key

/-- Witness for C9: for the unit semicircle, segments at tolerance 1 are no
more numerous than at tolerance one half. -/
theorem num_segments_monotone_witness :
    semiArc.num_segments 1 ≤ semiArc.num_segments (1 / 2) :=
  (num_segments_monotone semiArc (1 / 2) 1
    (by rw [semiArc_angle]; exact Real.pi_pos)
    (by norm_num) (by norm_num)).1

/-- C5 (amended): for an arc with positive angle, a positive radii sum and a
positive tolerance, the angle stays below a full turn, the segment count is
exactly the ceiling of arc length over tolerance, flatten emits one point per
parameter i / N for i = 0 .. N, each equal to
center + (rx cos θ, ry sin θ) at θ = start_angle + angle · (i / N), and an
omitted tolerance behaves like tolerance 1/10. -/
theorem flatten_spec (a : ArcShape) (t : ℚ)
    (hang : 0 < a.angle) (ht : 0 < t) (hr : 0 < a.radii.x + a.radii.y) :
    a.angle < 2 * Real.pi ∧
    a.arc_length = ((a.radii.x : ℝ) + (a.radii.y : ℝ)) / 2 * a.angle ∧
    (a.num_segments t : ℤ) = ⌈a.arc_length / (t : ℝ)⌉ ∧
    (a.flatten (some t)).length = a.num_segments t + 1 ∧
    a.flatten none = a.flatten (some (1 / 10)) ∧
    ∀ i : ℕ, i ≤ a.num_segments t →
      (a.flatten (some t))[i]? =
        some (some
          ((a.center.x : ℝ) + (a.radii.x : ℝ) *
             Real.cos (a.start_angle + a.angle * ((i : ℝ) / (a.num_segments t : ℝ))),
           (a.center.y : ℝ) + (a.radii.y : ℝ) *
             Real.sin (a.start_angle + a.angle * ((i : ℝ) / (a.num_segments t : ℝ))))) := by
  have hL : 0 < a.arc_length := by
    have hrr : (0 : ℝ) < ((a.radii.x : ℝ) + (a.radii.y : ℝ)) / 2 := by
      have : (0 : ℝ) < ((a.radii.x : ℝ) + (a.radii.y : ℝ)) := by exact_mod_cast hr
      linarith
    simpa only [ArcShape.arc_length] using mul_pos hrr hang
  have htR : (0 : ℝ) < (t : ℝ) := by exact_mod_cast ht
  have hq : 0 < a.arc_length / (t : ℝ) := div_pos hL htR
  have hceil : 0 < ⌈a.arc_length / (t : ℝ)⌉ := Int.ceil_pos.mpr hq
  have hns : (a.num_segments t : ℤ) = ⌈a.arc_length / (t : ℝ)⌉ := by
    simp only [ArcShape.num_segments]
    exact Int.toNat_of_nonneg hceil.le
  have hnpos : 0 < a.num_segments t := by
    have : (0 : ℤ) < (a.num_segments t : ℤ) := by rw [hns]; exact hceil
    exact_mod_cast this
  refine ⟨(angle_nonneg_lt a).2, rfl, hns, flatten_length a (some t), rfl, ?_⟩
  intro i hi
  have hi' : i < a.num_segments t + 1 := Nat.lt_succ_of_le hi
  show ((List.range (a.num_segments t + 1)).map fun (j : ℕ) =>
      if a.num_segments t = 0 then none
      else some (a.point_at ((j : ℝ) / (a.num_segments t : ℝ))))[i]? = _
  rw [List.getElem?_map, List.getElem?_range hi']
  simp only [Option.map_some', if_neg hnpos.ne', ArcShape.point_at]

/-- Witness for C5 at the unit semicircle with tolerance 1: the point count is
the segment count plus one, and the segment count agrees with the ceiling
formula. -/
theorem flatten_spec_witness :
    (semiArc.flatten (some 1)).length = semiArc.num_segments 1 + 1 ∧
    (semiArc.num_segments 1 : ℤ) = ⌈semiArc.arc_length / ((1 : ℚ) : ℝ)⌉ :=
  ⟨(flatten_spec semiArc 1 (by rw [semiArc_angle]; exact Real.pi_pos)
      (by norm_num) (by norm_num [semiArc])).2.2.2.1,
   (flatten_spec semiArc 1 (by rw [semiArc_angle]; exact Real.pi_pos)
      (by norm_num) (by norm_num [semiArc])).2.2.1⟩

/-- Counterexample for C5 as stated: the semicircular arc with radii
(-4, -4) has positive angle pi and tolerance 1, yet flatten returns one
point while the claimed count, ceiling of arc length over tolerance plus
one, is -11: the f32-to-usize cast clamps the negative ceiling to zero. -/
theorem flatten_count_counterexample :
    0 < negRadiiArc.angle ∧
    ((negRadiiArc.flatten (some 1)).length : ℤ) ≠
      ⌈negRadiiArc.arc_length / ((1 : ℚ) : ℝ)⌉ + 1 := by
  have hang : negRadiiArc.angle = Real.pi := by
    rw [show negRadiiArc.angle = semiArc.angle from rfl]
    exact semiArc_angle
  have hrx : ((negRadiiArc.radii.x : ℚ) : ℝ) = -4 := by norm_num [negRadiiArc]
  have hry : ((negRadiiArc.radii.y : ℚ) : ℝ) = -4 := by norm_num [negRadiiArc]
  have hL : negRadiiArc.arc_length = -4 * Real.pi := by
    simp only [ArcShape.arc_length, hang, hrx, hry]
    ring
  have hceil : ⌈(-4 : ℝ) * Real.pi⌉ = -12 := by
    refine Int.ceil_eq_iff.mpr ⟨?_, ?_⟩
    · push_cast
      linarith [Real.pi_lt_d2]
    · push_cast
      linarith [Real.pi_gt_three]
  have hone : ((1 : ℚ) : ℝ) = 1 := by norm_num
  have hns : negRadiiArc.num_segments 1 = 0 := by
    simp only [ArcShape.num_segments, hL, hone, div_one, hceil]
    rfl
  refine ⟨by rw [hang]; exact Real.pi_pos, ?_⟩
  have hflat : (negRadiiArc.flatten (some 1)).length = 1 := by
    rw [flatten_length]
    simp only [Option.getD_some, hns]
  have hrhs : ⌈negRadiiArc.arc_length / ((1 : ℚ) : ℝ)⌉ = -12 := by
    rw [hL, hone, div_one, hceil]
  rw [hflat, hrhs]
  decide

/-- C6 (amended): with a nonnegative stroke width and nonnegative radii, the
visual bounding rectangle contains the center, the start and the end. -/
theorem visual_bounding_rect_contains (a : ArcShape)
    (hw : 0 ≤ a.stroke.width) (hx : 0 ≤ a.radii.x) (hy : 0 ≤ a.radii.y) :
    a.visual_bounding_rect.contains a.center ∧
    a.visual_bounding_rect.contains a.start ∧
    a.visual_bounding_rect.contains a.«end» := by
  have h1 := min_le_left a.start.x a.«end».x
  have h2 := min_le_right a.start.x a.«end».x
  have h3 := le_max_left a.start.x a.«end».x
  have h4 := le_max_right a.start.x a.«end».x
  have h5 := min_le_left a.start.y a.«end».y
  have h6 := min_le_right a.start.y a.«end».y
  have h7 := le_max_left a.start.y a.«end».y
  have h8 := le_max_right a.start.y a.«end».y
  have c1 := min_le_right (Min.min a.start.x a.«end».x - a.stroke.width / 2) a.center.x
  have c2 := le_max_right (Max.max a.start.x a.«end».x + a.stroke.width / 2) a.center.x
  have c3 := min_le_right (Min.min a.start.y a.«end».y - a.stroke.width / 2) a.center.y
  have c4 := le_max_right (Max.max a.start.y a.«end».y + a.stroke.width / 2) a.center.y
  have d1 := min_le_left (Min.min a.start.x a.«end».x - a.stroke.width / 2) a.center.x
  have d2 := le_max_left (Max.max a.start.x a.«end».x + a.stroke.width / 2) a.center.x
  have d3 := min_le_left (Min.min a.start.y a.«end».y - a.stroke.width / 2) a.center.y
  have d4 := le_max_left (Max.max a.start.y a.«end».y + a.stroke.width / 2) a.center.y
  simp only [ArcShape.visual_bounding_rect, Rect.from_two_points, Rect.expand,
    Rect.union, Rect.from_pos, Rect.expand2, Rect.contains]
  refine ⟨⟨?_, ?_, ?_, ?_⟩, ⟨?_, ?_, ?_, ?_⟩, ⟨?_, ?_, ?_, ?_⟩⟩ <;> linarith

/-- Witness for C6 at the unit semicircle, whose stroke width is 0 and whose
radii are (1, 1). -/
theorem visual_bounding_rect_contains_witness :
    semiArc.visual_bounding_rect.contains semiArc.center ∧
    semiArc.visual_bounding_rect.contains semiArc.start ∧
    semiArc.visual_bounding_rect.contains semiArc.«end» :=
  visual_bounding_rect_contains semiArc
    (by norm_num [semiArc, PathStroke.NONE])
    (by norm_num [semiArc]) (by norm_num [semiArc])

/-- Counterexample for C6 as stated: with a negative stroke width and negative
radii the expansions shrink the rectangle past its own corners, and the
resulting rectangle contains none of center, start and end. -/
theorem visual_bounding_rect_counterexample :
    ¬ (badBoundsArc.visual_bounding_rect.contains badBoundsArc.center ∧
       badBoundsArc.visual_bounding_rect.contains badBoundsArc.start ∧
       badBoundsArc.visual_bounding_rect.contains badBoundsArc.«end») := by
  norm_num [badBoundsArc, semiArc, PathStroke.NONE, ArcShape.visual_bounding_rect,
    Rect.from_two_points, Rect.expand, Rect.union, Rect.from_pos, Rect.expand2,
    Rect.contains, min_def, max_def]
